import Mathlib

/-!
Shallow embedding of the glyph outline caching and text-to-path pipeline of
pathfinder (crate pathfinder_text, file text/src/lib.rs), together with the
external geometry and scene collaborators it consumes.  Machine floats
(f32) are idealised as rationals; the u32 of GlyphId and of units_per_em as
naturals.  Definitions translated from text/src/lib.rs carry the source
line numbers; collaborator types that live in other crates of the
repository (pathfinder_geometry, pathfinder_content, pathfinder_renderer,
font-kit) are modelled from the specification, as indicated on each.
-/

/-- Modelled from the spec: a 2-D point (pathfinder_geometry Vector2F,
f32 coordinates idealised as rationals). -/
structure Vector2F where
  x : ℚ
  y : ℚ
deriving DecidableEq, Repr

/-- Modelled from the spec: an affine 2-D transform (pathfinder_geometry
Transform2F): a 2x2 linear part plus a translation vector. -/
structure Transform2F where
  m11 : ℚ
  m12 : ℚ
  m21 : ℚ
  m22 : ℚ
  tx : ℚ
  ty : ℚ
deriving DecidableEq, Repr

/-- Modelled from the spec: applying a transform to a point. -/
def Transform2F.apply (t : Transform2F) (p : Vector2F) : Vector2F :=
  ⟨t.m11 * p.x + t.m12 * p.y + t.tx, t.m21 * p.x + t.m22 * p.y + t.ty⟩

/-- Modelled from the spec: transform composition; (a.mul b).apply p =
a.apply (b.apply p), the right factor acts first. -/
def Transform2F.mul (a b : Transform2F) : Transform2F :=
  ⟨a.m11 * b.m11 + a.m12 * b.m21,
   a.m11 * b.m12 + a.m12 * b.m22,
   a.m21 * b.m11 + a.m22 * b.m21,
   a.m21 * b.m12 + a.m22 * b.m22,
   a.m11 * b.tx + a.m12 * b.ty + a.tx,
   a.m21 * b.tx + a.m22 * b.ty + a.ty⟩

instance : Mul Transform2F := ⟨Transform2F.mul⟩

/-- Modelled from the spec: axis-aligned scale transform. -/
def Transform2F.fromScale (v : Vector2F) : Transform2F :=
  ⟨v.x, 0, 0, v.y, 0, 0⟩

/-- Modelled from the spec: pure translation transform. -/
def Transform2F.fromTranslation (v : Vector2F) : Transform2F :=
  ⟨1, 0, 0, 1, v.x, v.y⟩

/-- Modelled from the spec: the translate builder method used at
text/src/lib.rs line 135, `from_scale(s).translate(offset)`; the spec
(section 4.3 step 3) fixes the resulting composition as
transform ∘ scale(fontScale, −fontScale) ∘ translate(offset), so the
translation acts first (innermost). -/
def Transform2F.translate (t : Transform2F) (v : Vector2F) : Transform2F :=
  t * Transform2F.fromTranslation v

/-- Modelled from the spec: a curve segment of a contour (line, quadratic
or cubic), each ending at an on-curve point (pathfinder_content). -/
inductive Seg where
  | line (endPt : Vector2F)
  | quad (ctrl endPt : Vector2F)
  | cubic (ctrl0 ctrl1 endPt : Vector2F)
deriving DecidableEq, Repr

/-- Modelled from the spec: a Contour is an ordered sequence of curve
segments plus an open/closed flag, beginning at a start point
(pathfinder_content Contour). -/
structure Contour where
  start : Option Vector2F
  segments : List Seg
  closed : Bool
deriving DecidableEq, Repr

def Contour.new : Contour := ⟨none, [], false⟩

/-- Modelled from the spec: a contour with zero segments counts as empty
(section 4.1: a contour with zero segments is silently discarded). -/
def Contour.isEmpty (c : Contour) : Bool := c.segments.isEmpty

/-- Modelled from the spec: push an on-curve endpoint; the first endpoint
of a contour is its start point, later ones end line segments. -/
def Contour.pushEndpoint (c : Contour) (p : Vector2F) : Contour :=
  match c.start with
  | none => { c with start := some p }
  | some _ => { c with segments := c.segments ++ [Seg.line p] }

/-- Modelled from the spec: push a quadratic segment. -/
def Contour.pushQuadratic (c : Contour) (ctrl p : Vector2F) : Contour :=
  { c with segments := c.segments ++ [Seg.quad ctrl p] }

/-- Modelled from the spec: push a cubic segment. -/
def Contour.pushCubic (c : Contour) (ctrl0 ctrl1 p : Vector2F) : Contour :=
  { c with segments := c.segments ++ [Seg.cubic ctrl0 ctrl1 p] }

/-- Modelled from the spec: mark the contour closed (does not flush). -/
def Contour.close (c : Contour) : Contour := { c with closed := true }

def Seg.transform (t : Transform2F) : Seg → Seg
  | .line p => .line (t.apply p)
  | .quad c p => .quad (t.apply c) (t.apply p)
  | .cubic c0 c1 p => .cubic (t.apply c0) (t.apply c1) (t.apply p)

/-- Modelled from the spec: transforming a contour transforms every
coordinate; the structure (segment kinds, closed flag) is unchanged. -/
def Contour.transform (c : Contour) (t : Transform2F) : Contour :=
  ⟨c.start.map t.apply, c.segments.map (Seg.transform t), c.closed⟩

/-- Modelled from the spec: an Outline is an ordered sequence of Contours
(pathfinder_content Outline). -/
structure Outline where
  contours : List Contour
deriving DecidableEq, Repr

def Outline.new : Outline := ⟨[]⟩

def Outline.pushContour (o : Outline) (c : Contour) : Outline :=
  ⟨o.contours ++ [c]⟩

/-- Modelled from the spec: transforming an outline produces a new
geometrically transformed outline (value semantics). -/
def Outline.transform (o : Outline) (t : Transform2F) : Outline :=
  ⟨o.contours.map (fun c => c.transform t)⟩

/-- Modelled from the spec (font-kit HintingOptions): the hinting mode,
with the no-hinting variant and size-carrying hinted variants. -/
inductive HintingOptions where
  | none
  | vertical (size : ℚ)
  | verticalSubpixel (size : ℚ)
  | full (size : ℚ)
deriving DecidableEq, Repr

/-- Modelled from the spec (font-kit GlyphLoadingError): the single error
kind of the pipeline, raised only by glyph-outline extraction. -/
inductive GlyphLoadingError where
  | noSuchGlyph
  | platformError
deriving DecidableEq, Repr

/-- Modelled from the spec (font-kit Metrics): the metrics snapshot; only
units_per_em is consumed by this pipeline. -/
structure Metrics where
  unitsPerEm : ℕ
deriving DecidableEq, Repr

/-- Modelled from the spec: a curve-construction event emitted by a font's
outline source into the sink (font-kit OutlineSink calls). -/
inductive PathEvent where
  | moveTo (p : Vector2F)
  | lineTo (p : Vector2F)
  | quadTo (ctrl p : Vector2F)
  | cubicTo (ctrl0 ctrl1 p : Vector2F)
  | close
deriving DecidableEq, Repr

/-- Modelled from the spec: the font capability: metrics (queryable any
time, infallible), an outline source per glyph id and hinting mode (the
event stream it would drive into a sink, or the extraction error), and an
optional stable postscript name usable as a cache key. -/
structure Font where
  metrics : Metrics
  glyph : ℕ → HintingOptions → Except GlyphLoadingError (List PathEvent)
  postscriptName : Option String

-- text/src/lib.rs line 81: pub struct GlyphId(pub u32)
abbrev GlyphId := ℕ

/-- text/src/lib.rs lines 270-274: the render mode; the stroke style is an
opaque value resolved by the external stroke converter. -/
inductive TextRenderMode where
  | fill
  | stroke (style : ℕ)
deriving DecidableEq, Repr

/-- text/src/lib.rs lines 49-56: per-call render options. Paint, clip-path
and blend-mode references are opaque identifiers passed through. -/
structure FontRenderOptions where
  transform : Transform2F
  renderMode : TextRenderMode
  hintingOptions : HintingOptions
  clipPath : Option ℕ
  blendMode : ℕ
  paintId : ℕ

/-- Modelled from the spec: a drawable path: device-space outline plus
paint/clip/blend references (pathfinder_renderer DrawPath). -/
structure DrawPath where
  outline : Outline
  paintId : ℕ
  clipPath : Option ℕ
  blendMode : ℕ
deriving DecidableEq, Repr

/-- Modelled from the spec: the scene sink is an append-only ordered
collection of drawable paths (pathfinder_renderer Scene). -/
abbrev Scene := List DrawPath

/-- text/src/lib.rs lines 276-280: the outline path builder state. -/
structure OutlinePathBuilder where
  outline : Outline
  currentContour : Contour
  transform : Transform2F

/-- text/src/lib.rs lines 283-289: builder construction. -/
def OutlinePathBuilder.new (t : Transform2F) : OutlinePathBuilder :=
  ⟨Outline.new, Contour.new, t⟩

/-- text/src/lib.rs lines 291-296: flush the current contour into the
outline if it is non-empty. -/
def OutlinePathBuilder.flushCurrentContour (b : OutlinePathBuilder) : OutlinePathBuilder :=
  if b.currentContour.isEmpty then b
  else ⟨b.outline.pushContour b.currentContour, Contour.new, b.transform⟩

/-- text/src/lib.rs lines 298-301: build = flush, then return the outline. -/
def OutlinePathBuilder.build (b : OutlinePathBuilder) : Outline :=
  b.flushCurrentContour.outline

/-- text/src/lib.rs lines 305-308: move_to flushes, then starts a new
contour at the transformed point. -/
def OutlinePathBuilder.moveTo (b : OutlinePathBuilder) (p : Vector2F) : OutlinePathBuilder :=
  let b := b.flushCurrentContour
  { b with currentContour := b.currentContour.pushEndpoint (b.transform.apply p) }

/-- text/src/lib.rs lines 310-312. -/
def OutlinePathBuilder.lineTo (b : OutlinePathBuilder) (p : Vector2F) : OutlinePathBuilder :=
  { b with currentContour := b.currentContour.pushEndpoint (b.transform.apply p) }

/-- text/src/lib.rs lines 314-317. -/
def OutlinePathBuilder.quadraticCurveTo (b : OutlinePathBuilder) (ctrl p : Vector2F) :
    OutlinePathBuilder :=
  { b with currentContour := b.currentContour.pushQuadratic (b.transform.apply ctrl) (b.transform.apply p) }

/-- text/src/lib.rs lines 319-325. -/
def OutlinePathBuilder.cubicCurveTo (b : OutlinePathBuilder) (ctrl0 ctrl1 p : Vector2F) :
    OutlinePathBuilder :=
  { b with currentContour := b.currentContour.pushCubic (b.transform.apply ctrl0) (b.transform.apply ctrl1) (b.transform.apply p) }

/-- text/src/lib.rs lines 327-329. -/
def OutlinePathBuilder.closePath (b : OutlinePathBuilder) : OutlinePathBuilder :=
  { b with currentContour := b.currentContour.close }

/-- Dispatch one sink event to the builder (the OutlineSink impl,
text/src/lib.rs lines 304-330). -/
def OutlinePathBuilder.runEvent (b : OutlinePathBuilder) : PathEvent → OutlinePathBuilder
  | .moveTo p => b.moveTo p
  | .lineTo p => b.lineTo p
  | .quadTo c p => b.quadraticCurveTo c p
  | .cubicTo c0 c1 p => b.cubicCurveTo c0 c1 p
  | .close => b.closePath

def OutlinePathBuilder.runEvents (b : OutlinePathBuilder) (evs : List PathEvent) :
    OutlinePathBuilder :=
  evs.foldl OutlinePathBuilder.runEvent b

/-- The outline a font's event stream builds under a fixed transform:
feed every event into a fresh builder, then build. -/
def buildOutline (evs : List PathEvent) (t : Transform2F) : Outline :=
  ((OutlinePathBuilder.new t).runEvents evs).build

/-- Association-list model of std HashMap lookup (get / contains_key). -/
def assocFind {α β : Type} [DecidableEq α] : List (α × β) → α → Option β
  | [], _ => none
  | kv :: rest, k => if kv.1 = k then some kv.2 else assocFind rest k

/-- Association-list model of std HashMap insert (replace or append). -/
def assocReplace {α β : Type} [DecidableEq α] : List (α × β) → α → β → List (α × β)
  | [], k, v => [(k, v)]
  | kv :: rest, k, v => if kv.1 = k then (k, v) :: rest else kv :: assocReplace rest k v

/-- text/src/lib.rs lines 38-46: per-font cache entry: the font handle,
its metrics snapshot, and the glyph-id-to-outline cache. -/
structure FontInfo where
  font : Font
  metrics : Metrics
  outlineCache : List (GlyphId × Outline)

/-- text/src/lib.rs lines 248-255: FontInfo::new queries the metrics once
and starts with an empty outline cache. -/
def FontInfo.new (font : Font) : FontInfo :=
  ⟨font, font.metrics, []⟩

/-- text/src/lib.rs lines 30-36: the font context owns the mapping from
font identity key to cache entry. -/
structure FontContext where
  fontInfo : List (String × FontInfo)

/-- text/src/lib.rs lines 87-92: FontContext::new. -/
def FontContext.new : FontContext := ⟨[]⟩

/-- The external stroke-converter capability (pathfinder_content
OutlineStrokeToFill), consumed as an opaque pure function. -/
abbrev StrokeFn := Outline → ℕ → Outline

/-- Result of one pushGlyph call: the updated context, the updated scene,
and `none` for Ok or the propagated extraction error. -/
structure PushResult where
  ctx : FontContext
  scene : Scene
  result : Option GlyphLoadingError

/-- text/src/lib.rs line 133: font_scale = font_size / units_per_em. -/
def fontScaleOf (m : Metrics) (fontSize : ℚ) : ℚ :=
  fontSize / (m.unitsPerEm : ℚ)

/-- text/src/lib.rs lines 134-135: the per-call render transform:
renderOptions.transform ∘ scale(fontScale, −fontScale) ∘ translate(offset). -/
def renderTransformOf (m : Metrics) (fontSize : ℚ) (glyphOffset : Vector2F)
    (renderOptions : FontRenderOptions) : Transform2F :=
  renderOptions.transform *
    ((Transform2F.fromScale ⟨fontScaleOf m fontSize, -(fontScaleOf m fontSize)⟩).translate glyphOffset)

/-- text/src/lib.rs lines 165-169: stroke conversion when the render mode
is the stroke variant, identity for fill. -/
def applyRenderMode (strokeFn : StrokeFn) (mode : TextRenderMode) (outline : Outline) : Outline :=
  match mode with
  | .fill => outline
  | .stroke style => strokeFn outline style

/-- text/src/lib.rs lines 165-176: optional stroke conversion, then wrap
the outline into a DrawPath and append it to the scene. -/
def finishPath (strokeFn : StrokeFn) (ctx : FontContext) (scene : Scene)
    (renderOptions : FontRenderOptions) (outline : Outline) : PushResult :=
  let outline := applyRenderMode strokeFn renderOptions.renderMode outline
  let path : DrawPath := ⟨outline, renderOptions.paintId, renderOptions.clipPath, renderOptions.blendMode⟩
  ⟨ctx, scene ++ [path], none⟩

/-- text/src/lib.rs lines 104-118, context half: insert a fresh entry for
the key if it is absent; the keyless path touches nothing. -/
def resolveCtx (ctx : FontContext) (font : Font) (fontKey : Option String) : FontContext :=
  match fontKey with
  | some key =>
    if (assocFind ctx.fontInfo key).isSome then ctx
    else ⟨assocReplace ctx.fontInfo key (FontInfo.new font)⟩
  | none => ctx

/-- text/src/lib.rs lines 104-118, entry half: the cache entry the call
works on: the mapped entry for a present key (always found after
resolveCtx), an owned throwaway entry when the key is absent. -/
def resolveEntry (ctx1 : FontContext) (font : Font) (fontKey : Option String) : FontInfo :=
  match fontKey with
  | some key => (assocFind ctx1.fontInfo key).getD (FontInfo.new font)
  | none => FontInfo.new font

/-- text/src/lib.rs lines 124-130: the cache lookup, attempted only when
the hinting mode is the no-hinting variant. -/
def cachedOutlineOf (fi : FontInfo) (glyphId : GlyphId) (renderOptions : FontRenderOptions) :
    Option Outline :=
  if decide (renderOptions.hintingOptions = HintingOptions.none) then
    assocFind fi.outlineCache glyphId
  else none

/-- text/src/lib.rs lines 94-177: FontContext::push_glyph.  Resolve or
create the cache entry (owned and uninserted when fontKey is absent),
decide cacheability from the hinting mode, look up the outline cache,
extract on a miss (normalised to units-per-em space when cacheable,
inserting the untransformed clone before transforming the local copy),
then stroke/wrap/append. -/
def pushGlyph (strokeFn : StrokeFn) (ctx : FontContext) (scene : Scene) (font : Font)
    (fontKey : Option String) (glyphId : GlyphId) (glyphOffset : Vector2F) (fontSize : ℚ)
    (renderOptions : FontRenderOptions) : PushResult :=
  let ctx1 : FontContext := resolveCtx ctx font fontKey
  let fontInfo : FontInfo := resolveEntry ctx1 font fontKey
  let canCache : Bool := decide (renderOptions.hintingOptions = HintingOptions.none)
  let cachedOutline : Option Outline := cachedOutlineOf fontInfo glyphId renderOptions
  let metrics := fontInfo.metrics
  let renderTransform := renderTransformOf metrics fontSize glyphOffset renderOptions
  match cachedOutline with
  | some cached =>
    let scale : ℚ := 1 / (metrics.unitsPerEm : ℚ)
    let outline := cached.transform (renderTransform * Transform2F.fromScale ⟨scale, scale⟩)
    finishPath strokeFn ctx1 scene renderOptions outline
  | none =>
    let transform :=
      if canCache then Transform2F.fromScale ⟨(metrics.unitsPerEm : ℚ), (metrics.unitsPerEm : ℚ)⟩
      else renderTransform
    match font.glyph glyphId renderOptions.hintingOptions with
    | .error e => ⟨ctx1, scene, some e⟩
    | .ok evs =>
      let outline0 := buildOutline evs transform
      if canCache then
        let fontInfo1 : FontInfo :=
          { fontInfo with outlineCache := assocReplace fontInfo.outlineCache glyphId outline0 }
        let ctx2 : FontContext :=
          match fontKey with
          | some key => ⟨assocReplace ctx1.fontInfo key fontInfo1⟩
          | none => ctx1
        let scale : ℚ := 1 / (metrics.unitsPerEm : ℚ)
        let outline := outline0.transform (renderTransform * Transform2F.fromScale ⟨scale, scale⟩)
        finishPath strokeFn ctx2 scene renderOptions outline
      else
        finishPath strokeFn ctx1 scene renderOptions outline0

/-- Modelled from the spec (skribo layout glyph): a positioned glyph
record: a font reference (fontPtr models the Arc pointer identity used by
Arc::ptr_eq; font is the referenced value), the glyph id and the offset. -/
structure LGlyph where
  fontPtr : ℕ
  font : Font
  glyphId : ℕ
  offset : Vector2F

/-- Modelled from the spec (skribo TextStyle): carries the font size. -/
structure TextStyle where
  size : ℚ

/-- The one-slot memo of text/src/lib.rs lines 196-207: the previous
glyph's font pointer, font value, and its postscript-name key. -/
structure CachedFontKey where
  fontPtr : ℕ
  font : Font
  key : Option String

/-- text/src/lib.rs lines 196-218: the per-glyph loop of push_layout with
the identity-compared one-slot font memo; stops at the first error. -/
def pushLayoutAux (strokeFn : StrokeFn) (ctx : FontContext) (scene : Scene)
    (glyphs : List LGlyph) (size : ℚ) (renderOptions : FontRenderOptions)
    (memo : Option CachedFontKey) : PushResult :=
  match glyphs with
  | [] => ⟨ctx, scene, none⟩
  | g :: gs =>
    let memo1 : CachedFontKey :=
      match memo with
      | some m => if m.fontPtr = g.fontPtr then m else ⟨g.fontPtr, g.font, g.font.postscriptName⟩
      | none => ⟨g.fontPtr, g.font, g.font.postscriptName⟩
    let r := pushGlyph strokeFn ctx scene memo1.font memo1.key g.glyphId g.offset size renderOptions
    match r.result with
    | some e => ⟨r.ctx, r.scene, some e⟩
    | none => pushLayoutAux strokeFn r.ctx r.scene gs size renderOptions (some memo1)

/-- text/src/lib.rs lines 189-220: FontContext::push_layout. -/
def pushLayout (strokeFn : StrokeFn) (ctx : FontContext) (scene : Scene)
    (glyphs : List LGlyph) (style : TextStyle) (renderOptions : FontRenderOptions) : PushResult :=
  pushLayoutAux strokeFn ctx scene glyphs style.size renderOptions none

/-- The naive variant of the layout loop that recomputes the font's
identity key (its postscript name) for every glyph and always passes the
glyph's own font; the memo of pushLayoutAux must be observationally
equivalent to this. -/
def pushLayoutNaive (strokeFn : StrokeFn) (ctx : FontContext) (scene : Scene)
    (glyphs : List LGlyph) (size : ℚ) (renderOptions : FontRenderOptions) : PushResult :=
  match glyphs with
  | [] => ⟨ctx, scene, none⟩
  | g :: gs =>
    let r := pushGlyph strokeFn ctx scene g.font g.font.postscriptName g.glyphId g.offset size renderOptions
    match r.result with
    | some e => ⟨r.ctx, r.scene, some e⟩
    | none => pushLayoutNaive strokeFn r.ctx r.scene gs size renderOptions

/-- The outline cached for glyph g under key k, if any. -/
def lookupOutline (ctx : FontContext) (k : String) (g : GlyphId) : Option Outline :=
  match assocFind ctx.fontInfo k with
  | none => none
  | some fi => assocFind fi.outlineCache g

/-- Same, for an optional key: the keyless path has no persistent cache. -/
def lookupOutlineOpt (ctx : FontContext) (k : Option String) (g : GlyphId) : Option Outline :=
  match k with
  | none => none
  | some key => lookupOutline ctx key g

/-- The context with every entry's outline cache emptied (used to state
that hinted calls never read the cache). -/
def clearCaches (ctx : FontContext) : FontContext :=
  ⟨ctx.fontInfo.map (fun kv => (kv.1, { kv.2 with outlineCache := [] }))⟩

/-! Concrete fixtures used by witnesses: a font with units_per_em 2 whose
extraction fails exactly for glyph id 7, an identity stroke converter, and
fill options around a given transform. -/

def keyA : String := "fontA"

def testFont : Font :=
  ⟨⟨2⟩, fun g _ => if g = 7 then .error .noSuchGlyph else .ok [.moveTo ⟨1, 2⟩, .lineTo ⟨3, 4⟩],
   some keyA⟩

def idStrokeFn : StrokeFn := fun o _ => o

def fillOpts (t : Transform2F) : FontRenderOptions := ⟨t, .fill, .none, none, 0, 0⟩

def hintedOpts : FontRenderOptions := ⟨⟨1, 0, 0, 1, 0, 0⟩, .fill, .full 12, none, 0, 0⟩

/-- A sequence of push_glyph calls for one (font, key, glyph id), each
feeding the next context and scene (used to state repeated-call
properties; the per-call offset, size and options vary). -/
def pushGlyphCalls (strokeFn : StrokeFn) (ctx : FontContext) (scene : Scene) (font : Font)
    (fontKey : Option String) (g : GlyphId) :
    List (Vector2F × ℚ × FontRenderOptions) → FontContext × Scene
  | [] => (ctx, scene)
  | c :: cs =>
    let r := pushGlyph strokeFn ctx scene font fontKey g c.1 c.2.1 c.2.2
    pushGlyphCalls strokeFn r.ctx r.scene font fontKey g cs

/-- A layout glyph of testFont at the origin. -/
def mkGlyph (id : ℕ) : LGlyph := ⟨0, testFont, id, ⟨0, 0⟩⟩

/-- Six-glyph layout whose fourth glyph (zero-indexed 3) has the failing
glyph id 7. -/
def layoutSix : List LGlyph :=
  [mkGlyph 1, mkGlyph 2, mkGlyph 3, mkGlyph 7, mkGlyph 5, mkGlyph 6]

def layoutThree : List LGlyph := [mkGlyph 1, mkGlyph 2, mkGlyph 3]

def layoutTwo : List LGlyph := [mkGlyph 1, mkGlyph 2]

/-! Association-list lemmas. -/

theorem assocFind_replace_self {α β : Type} [DecidableEq α] (l : List (α × β)) (k : α) (v : β) :
    assocFind (assocReplace l k v) k = some v := by
  induction l with
  | nil => simp [assocReplace, assocFind]
  | cons kv rest ih =>
    by_cases h : kv.1 = k
    · simp [assocReplace, assocFind, h]
    · simp [assocReplace, assocFind, h, ih]

theorem assocFind_replace_other {α β : Type} [DecidableEq α] (l : List (α × β)) (k k' : α)
    (v : β) (h : k' ≠ k) : assocFind (assocReplace l k v) k' = assocFind l k' := by
  induction l with
  | nil => simp [assocReplace, assocFind, Ne.symm h]
  | cons kv rest ih =>
    by_cases hk : kv.1 = k
    · subst hk
      simp [assocReplace, assocFind, Ne.symm h]
    · simp only [assocReplace, if_neg hk]
      by_cases hk' : kv.1 = k'
      · simp [assocFind, hk']
      · simp [assocFind, hk', ih]

@[simp] theorem resolveCtx_none (ctx : FontContext) (font : Font) :
    resolveCtx ctx font none = ctx := rfl

@[simp] theorem resolveEntry_none (ctx1 : FontContext) (font : Font) :
    resolveEntry ctx1 font none = FontInfo.new font := rfl

theorem resolveCtx_present (ctx : FontContext) (font : Font) (key : String) (E : FontInfo)
    (h : assocFind ctx.fontInfo key = some E) : resolveCtx ctx font (some key) = ctx := by
  simp [resolveCtx, h]

theorem resolveCtx_absent (ctx : FontContext) (font : Font) (key : String)
    (h : assocFind ctx.fontInfo key = none) :
    resolveCtx ctx font (some key) = ⟨assocReplace ctx.fontInfo key (FontInfo.new font)⟩ := by
  simp [resolveCtx, h]

theorem resolveEntry_some (ctx1 : FontContext) (font : Font) (key : String) (E : FontInfo)
    (h : assocFind ctx1.fontInfo key = some E) : resolveEntry ctx1 font (some key) = E := by
  simp [resolveEntry, h]

@[simp] theorem cachedOutlineOf_newFont (font : Font) (g : GlyphId)
    (opts : FontRenderOptions) : cachedOutlineOf (FontInfo.new font) g opts = none := by
  simp [cachedOutlineOf, FontInfo.new, assocFind]

theorem transformMulAssoc (a b c : Transform2F) : a * b * c = a * (b * c) := by
  show Transform2F.mul (Transform2F.mul a b) c = Transform2F.mul a (Transform2F.mul b c)
  simp only [Transform2F.mul, Transform2F.mk.injEq]
  refine ⟨by ring, by ring, by ring, by ring, by ring, by ring⟩

theorem transformMulDef (a b : Transform2F) : a * b = Transform2F.mul a b := rfl

/-- C7: Empty-contour discarding in the Outline Builder: moveTo followed
by build yields an outline with zero contours; moveTo, lineTo, build
yields exactly one contour with exactly one (line) segment; and in
general move_to flushes the current contour into the outline exactly when
it is non-empty. -/
theorem builder_empty_contour_discarded (t : Transform2F) (p q : Vector2F)
    (b : OutlinePathBuilder) :
    (buildOutline [PathEvent.moveTo p] t).contours = [] ∧
    (buildOutline [PathEvent.moveTo p, PathEvent.lineTo q] t).contours =
      [⟨some (t.apply p), [Seg.line (t.apply q)], false⟩] ∧
    (b.moveTo p).outline =
      (if b.currentContour.isEmpty then b.outline else b.outline.pushContour b.currentContour) := by
  refine ⟨rfl, rfl, ?_⟩
  cases h : b.currentContour.isEmpty <;>
    simp [OutlinePathBuilder.moveTo, OutlinePathBuilder.flushCurrentContour, h]

/-- C6: Render transform composition: the transform applied to the
glyph's outline is renderOptions.transform ∘ scale(fontScale, −fontScale)
∘ translate(offset) with fontScale = fontSize / unitsPerEm, and applied
to a point it scales the y coordinate by the negated font scale (the
vertical-axis flip is always present). -/
theorem renderTransform_composition (m : Metrics) (fontSize : ℚ) (off : Vector2F)
    (opts : FontRenderOptions) (p : Vector2F) :
    renderTransformOf m fontSize off opts =
      opts.transform *
        Transform2F.fromScale ⟨fontScaleOf m fontSize, -(fontScaleOf m fontSize)⟩ *
        Transform2F.fromTranslation off ∧
    (renderTransformOf m fontSize off opts).apply p =
      opts.transform.apply
        ⟨fontScaleOf m fontSize * (p.x + off.x), -(fontScaleOf m fontSize) * (p.y + off.y)⟩ := by
  constructor
  · rw [renderTransformOf, Transform2F.translate, transformMulAssoc]
  · simp only [renderTransformOf, Transform2F.translate, transformMulDef, Transform2F.mul,
      Transform2F.fromScale, Transform2F.fromTranslation, Transform2F.apply, Vector2F.mk.injEq]
    constructor <;> ring

/-- C4: No-stable-key path is transient: a push_glyph call with no font
key leaves the context exactly as it was (no insertion into the font-info
mapping nor into any outline cache), and its scene output and result are
computed from a throwaway entry, independent of the context. -/
theorem pushGlyph_no_key_transient (strokeFn : StrokeFn) (ctx ctxB : FontContext)
    (scene : Scene) (font : Font) (g : GlyphId) (off : Vector2F) (size : ℚ)
    (opts : FontRenderOptions) :
    (pushGlyph strokeFn ctx scene font none g off size opts).ctx = ctx ∧
    (pushGlyph strokeFn ctx scene font none g off size opts).scene =
      (pushGlyph strokeFn ctxB scene font none g off size opts).scene ∧
    (pushGlyph strokeFn ctx scene font none g off size opts).result =
      (pushGlyph strokeFn ctxB scene font none g off size opts).result := by
  unfold pushGlyph
  cases hfg : font.glyph g opts.hintingOptions with
  | error e => simp [hfg, finishPath]
  | ok evs =>
    simp only [resolveCtx_none, resolveEntry_none, cachedOutlineOf_newFont, hfg]
    split <;> simp [finishPath]

/-! Branch characterisations of pushGlyph. -/

theorem pushGlyph_hit_eq (strokeFn : StrokeFn) (ctx : FontContext) (scene : Scene)
    (font : Font) (key : String) (g : GlyphId) (off : Vector2F) (size : ℚ)
    (opts : FontRenderOptions) (E : FontInfo) (c : Outline)
    (hE : assocFind ctx.fontInfo key = some E)
    (hh : opts.hintingOptions = HintingOptions.none)
    (hc : assocFind E.outlineCache g = some c) :
    pushGlyph strokeFn ctx scene font (some key) g off size opts =
      ⟨ctx,
       scene ++
         [⟨applyRenderMode strokeFn opts.renderMode
             (c.transform (renderTransformOf E.metrics size off opts *
                Transform2F.fromScale
                  ⟨1 / (E.metrics.unitsPerEm : ℚ), 1 / (E.metrics.unitsPerEm : ℚ)⟩)),
           opts.paintId, opts.clipPath, opts.blendMode⟩],
       none⟩ := by
  simp only [pushGlyph]
  simp [resolveCtx_present ctx font key E hE, resolveEntry_some ctx font key E hE,
    cachedOutlineOf, hh, hc, finishPath]

theorem pushGlyph_missEntry_eq (strokeFn : StrokeFn) (ctx : FontContext) (scene : Scene)
    (font : Font) (key : String) (g : GlyphId) (off : Vector2F) (size : ℚ)
    (opts : FontRenderOptions) (E : FontInfo) (evs : List PathEvent)
    (hE : assocFind ctx.fontInfo key = some E)
    (hh : opts.hintingOptions = HintingOptions.none)
    (hc : assocFind E.outlineCache g = none)
    (hok : font.glyph g opts.hintingOptions = .ok evs) :
    pushGlyph strokeFn ctx scene font (some key) g off size opts =
      ⟨⟨assocReplace ctx.fontInfo key
          ⟨E.font, E.metrics,
           assocReplace E.outlineCache g
             (buildOutline evs
               (Transform2F.fromScale ⟨(E.metrics.unitsPerEm : ℚ), (E.metrics.unitsPerEm : ℚ)⟩))⟩⟩,
       scene ++
         [⟨applyRenderMode strokeFn opts.renderMode
             ((buildOutline evs
                 (Transform2F.fromScale ⟨(E.metrics.unitsPerEm : ℚ), (E.metrics.unitsPerEm : ℚ)⟩)).transform
                (renderTransformOf E.metrics size off opts *
                 Transform2F.fromScale
                   ⟨1 / (E.metrics.unitsPerEm : ℚ), 1 / (E.metrics.unitsPerEm : ℚ)⟩)),
           opts.paintId, opts.clipPath, opts.blendMode⟩],
       none⟩ := by
  rw [hh] at hok
  simp only [pushGlyph]
  simp [resolveCtx_present ctx font key E hE, resolveEntry_some ctx font key E hE,
    cachedOutlineOf, hh, hc, hok, finishPath]

theorem pushGlyph_missFresh_eq (strokeFn : StrokeFn) (ctx : FontContext) (scene : Scene)
    (font : Font) (key : String) (g : GlyphId) (off : Vector2F) (size : ℚ)
    (opts : FontRenderOptions) (evs : List PathEvent)
    (hE : assocFind ctx.fontInfo key = none)
    (hh : opts.hintingOptions = HintingOptions.none)
    (hok : font.glyph g opts.hintingOptions = .ok evs) :
    pushGlyph strokeFn ctx scene font (some key) g off size opts =
      ⟨⟨assocReplace (assocReplace ctx.fontInfo key (FontInfo.new font)) key
          ⟨font, font.metrics,
           [(g, buildOutline evs
              (Transform2F.fromScale
                ⟨(font.metrics.unitsPerEm : ℚ), (font.metrics.unitsPerEm : ℚ)⟩))]⟩⟩,
       scene ++
         [⟨applyRenderMode strokeFn opts.renderMode
             ((buildOutline evs
                 (Transform2F.fromScale
                   ⟨(font.metrics.unitsPerEm : ℚ), (font.metrics.unitsPerEm : ℚ)⟩)).transform
                (renderTransformOf font.metrics size off opts *
                 Transform2F.fromScale
                   ⟨1 / (font.metrics.unitsPerEm : ℚ), 1 / (font.metrics.unitsPerEm : ℚ)⟩)),
           opts.paintId, opts.clipPath, opts.blendMode⟩],
       none⟩ := by
  rw [hh] at hok
  have hfind : assocFind (assocReplace ctx.fontInfo key (FontInfo.new font)) key =
      some (FontInfo.new font) := assocFind_replace_self _ _ _
  simp only [pushGlyph]
  simp only [resolveCtx_absent ctx font key hE]
  simp only [resolveEntry_some ⟨assocReplace ctx.fontInfo key (FontInfo.new font)⟩ font key
    (FontInfo.new font) hfind]
  simp [cachedOutlineOf, FontInfo.new, assocFind, assocReplace, hh, hok, finishPath]

theorem pushGlyph_error_eq (strokeFn : StrokeFn) (ctx : FontContext) (scene : Scene)
    (font : Font) (fontKey : Option String) (g : GlyphId) (off : Vector2F) (size : ℚ)
    (opts : FontRenderOptions) (e : GlyphLoadingError)
    (hmiss : cachedOutlineOf (resolveEntry (resolveCtx ctx font fontKey) font fontKey) g opts = none)
    (herr : font.glyph g opts.hintingOptions = .error e) :
    pushGlyph strokeFn ctx scene font fontKey g off size opts =
      ⟨resolveCtx ctx font fontKey, scene, some e⟩ := by
  simp only [pushGlyph, hmiss, herr]

theorem pushGlyph_unhinted_eq (strokeFn : StrokeFn) (ctx : FontContext) (scene : Scene)
    (font : Font) (fontKey : Option String) (g : GlyphId) (off : Vector2F) (size : ℚ)
    (opts : FontRenderOptions) (evs : List PathEvent)
    (hh : opts.hintingOptions ≠ HintingOptions.none)
    (hok : font.glyph g opts.hintingOptions = .ok evs) :
    pushGlyph strokeFn ctx scene font fontKey g off size opts =
      ⟨resolveCtx ctx font fontKey,
       scene ++
         [⟨applyRenderMode strokeFn opts.renderMode
             (buildOutline evs
               (renderTransformOf (resolveEntry (resolveCtx ctx font fontKey) font fontKey).metrics
                 size off opts)),
           opts.paintId, opts.clipPath, opts.blendMode⟩],
       none⟩ := by
  unfold pushGlyph
  simp [cachedOutlineOf, hh, hok, finishPath]

/-! Context-shape helper lemmas. -/

theorem lookupOutline_resolveCtx (ctx : FontContext) (font : Font) (k : Option String)
    (k' : String) (g' : GlyphId) :
    lookupOutline (resolveCtx ctx font k) k' g' = lookupOutline ctx k' g' := by
  cases k with
  | none => rfl
  | some key =>
    unfold resolveCtx
    cases hE : assocFind ctx.fontInfo key with
    | some E => simp [hE]
    | none =>
      simp only [hE, Option.isSome_none, Bool.false_eq_true, if_false]
      by_cases hk : k' = key
      · subst hk
        simp [lookupOutline, assocFind_replace_self, hE, FontInfo.new, assocFind]
      · simp [lookupOutline, assocFind_replace_other _ _ _ _ hk]

theorem assocFind_clear (l : List (String × FontInfo)) (key : String) :
    assocFind (l.map (fun kv => (kv.1, (⟨kv.2.font, kv.2.metrics, []⟩ : FontInfo)))) key =
      (assocFind l key).map (fun fi => (⟨fi.font, fi.metrics, []⟩ : FontInfo)) := by
  induction l with
  | nil => rfl
  | cons kv rest ih =>
    by_cases h : kv.1 = key
    · simp [assocFind, h]
    · simp [assocFind, h, ih]

theorem assocFind_clearCaches (ctx : FontContext) (key : String) :
    assocFind (clearCaches ctx).fontInfo key =
      (assocFind ctx.fontInfo key).map (fun fi => (⟨fi.font, fi.metrics, []⟩ : FontInfo)) :=
  assocFind_clear ctx.fontInfo key

theorem pushGlyph_noKey_ctx (strokeFn : StrokeFn) (ctx : FontContext) (scene : Scene)
    (font : Font) (g : GlyphId) (off : Vector2F) (size : ℚ) (opts : FontRenderOptions) :
    (pushGlyph strokeFn ctx scene font none g off size opts).ctx = ctx := by
  unfold pushGlyph
  cases hfg : font.glyph g opts.hintingOptions with
  | error e => simp [hfg]
  | ok evs =>
    simp only [resolveCtx_none, resolveEntry_none, cachedOutlineOf_newFont, hfg]
    split <;> simp [finishPath]

theorem pushGlyph_hinted_ctx (strokeFn : StrokeFn) (ctx : FontContext) (scene : Scene)
    (font : Font) (k : Option String) (g : GlyphId) (off : Vector2F) (size : ℚ)
    (opts : FontRenderOptions) (hh : opts.hintingOptions ≠ HintingOptions.none) :
    (pushGlyph strokeFn ctx scene font k g off size opts).ctx = resolveCtx ctx font k := by
  have hmiss : cachedOutlineOf (resolveEntry (resolveCtx ctx font k) font k) g opts = none := by
    simp [cachedOutlineOf, hh]
  cases hfg : font.glyph g opts.hintingOptions with
  | error e => rw [pushGlyph_error_eq strokeFn ctx scene font k g off size opts e hmiss hfg]
  | ok evs => rw [pushGlyph_unhinted_eq strokeFn ctx scene font k g off size opts evs hh hfg]

theorem pushGlyph_hinted_lookup (strokeFn : StrokeFn) (ctx : FontContext) (scene : Scene)
    (font : Font) (k : Option String) (g : GlyphId) (off : Vector2F) (size : ℚ)
    (opts : FontRenderOptions) (hh : opts.hintingOptions ≠ HintingOptions.none)
    (k' : String) (g' : GlyphId) :
    lookupOutline (pushGlyph strokeFn ctx scene font k g off size opts).ctx k' g' =
      lookupOutline ctx k' g' := by
  rw [pushGlyph_hinted_ctx strokeFn ctx scene font k g off size opts hh,
    lookupOutline_resolveCtx]

theorem pushGlyphCalls_hinted_lookup (strokeFn : StrokeFn) (font : Font) (k : Option String)
    (g : GlyphId) :
    ∀ (calls : List (Vector2F × ℚ × FontRenderOptions)) (ctx : FontContext) (scene : Scene),
    (∀ c ∈ calls, (c.2.2 : FontRenderOptions).hintingOptions ≠ HintingOptions.none) →
    ∀ k' g', lookupOutline (pushGlyphCalls strokeFn ctx scene font k g calls).1 k' g' =
      lookupOutline ctx k' g' := by
  intro calls
  induction calls with
  | nil => intro ctx scene _ k' g'; rfl
  | cons c cs ih =>
    intro ctx scene h k' g'
    have h1 : (c.2.2 : FontRenderOptions).hintingOptions ≠ HintingOptions.none :=
      h c (List.mem_cons_self c cs)
    rw [pushGlyphCalls, ih _ _ (fun c' hc' => h c' (List.mem_cons_of_mem c hc')),
      pushGlyph_hinted_lookup _ _ _ _ _ _ _ _ _ h1]

theorem resolveEntry_clear_metrics (ctx : FontContext) (font : Font) (k : Option String) :
    (resolveEntry (resolveCtx (clearCaches ctx) font k) font k).metrics =
      (resolveEntry (resolveCtx ctx font k) font k).metrics := by
  cases k with
  | none => rfl
  | some key =>
    cases hE : assocFind ctx.fontInfo key with
    | some E =>
      have hE' : assocFind (clearCaches ctx).fontInfo key =
          some ⟨E.font, E.metrics, []⟩ := by
        rw [assocFind_clearCaches, hE]; rfl
      rw [resolveCtx_present _ font _ _ hE, resolveEntry_some _ font _ _ hE,
        resolveCtx_present _ font _ _ hE', resolveEntry_some _ font _ _ hE']
    | none =>
      have hE' : assocFind (clearCaches ctx).fontInfo key = none := by
        rw [assocFind_clearCaches, hE]; rfl
      rw [resolveCtx_absent _ font _ hE, resolveCtx_absent _ font _ hE',
        resolveEntry_some _ font _ _ (assocFind_replace_self _ _ _),
        resolveEntry_some _ font _ _ (assocFind_replace_self _ _ _)]

theorem pushGlyph_hinted_noread (strokeFn : StrokeFn) (ctx : FontContext) (scene : Scene)
    (font : Font) (k : Option String) (g : GlyphId) (off : Vector2F) (size : ℚ)
    (opts : FontRenderOptions) (hh : opts.hintingOptions ≠ HintingOptions.none) :
    (pushGlyph strokeFn ctx scene font k g off size opts).scene =
      (pushGlyph strokeFn (clearCaches ctx) scene font k g off size opts).scene ∧
    (pushGlyph strokeFn ctx scene font k g off size opts).result =
      (pushGlyph strokeFn (clearCaches ctx) scene font k g off size opts).result := by
  have hm1 : cachedOutlineOf (resolveEntry (resolveCtx ctx font k) font k) g opts = none := by
    simp [cachedOutlineOf, hh]
  have hm2 : cachedOutlineOf
      (resolveEntry (resolveCtx (clearCaches ctx) font k) font k) g opts = none := by
    simp [cachedOutlineOf, hh]
  cases hfg : font.glyph g opts.hintingOptions with
  | error e =>
    rw [pushGlyph_error_eq strokeFn ctx scene font k g off size opts e hm1 hfg,
      pushGlyph_error_eq strokeFn (clearCaches ctx) scene font k g off size opts e hm2 hfg]
    exact ⟨rfl, rfl⟩
  | ok evs =>
    rw [pushGlyph_unhinted_eq strokeFn ctx scene font k g off size opts evs hh hfg,
      pushGlyph_unhinted_eq strokeFn (clearCaches ctx) scene font k g off size opts evs hh hfg,
      resolveEntry_clear_metrics]
    exact ⟨rfl, rfl⟩

theorem pushGlyph_ctx_only_hinting (strokeFn1 strokeFn2 : StrokeFn) (ctx : FontContext)
    (scene1 scene2 : Scene) (font : Font) (k : Option String) (g : GlyphId)
    (off1 off2 : Vector2F) (size1 size2 : ℚ) (opts1 opts2 : FontRenderOptions)
    (hh : opts1.hintingOptions = opts2.hintingOptions) :
    (pushGlyph strokeFn1 ctx scene1 font k g off1 size1 opts1).ctx =
      (pushGlyph strokeFn2 ctx scene2 font k g off2 size2 opts2).ctx := by
  cases k with
  | none => rw [pushGlyph_noKey_ctx, pushGlyph_noKey_ctx]
  | some key =>
    by_cases h1 : opts1.hintingOptions = HintingOptions.none
    · have h2 : opts2.hintingOptions = HintingOptions.none := hh ▸ h1
      cases hE : assocFind ctx.fontInfo key with
      | some E =>
        cases hc : assocFind E.outlineCache g with
        | some c =>
          rw [pushGlyph_hit_eq strokeFn1 ctx scene1 font key g off1 size1 opts1 E c hE h1 hc,
            pushGlyph_hit_eq strokeFn2 ctx scene2 font key g off2 size2 opts2 E c hE h2 hc]
        | none =>
          cases hfg : font.glyph g HintingOptions.none with
          | ok evs =>
            have hok1 : font.glyph g opts1.hintingOptions = .ok evs := by rw [h1]; exact hfg
            have hok2 : font.glyph g opts2.hintingOptions = .ok evs := by rw [h2]; exact hfg
            rw [pushGlyph_missEntry_eq strokeFn1 ctx scene1 font key g off1 size1 opts1 E evs
                hE h1 hc hok1,
              pushGlyph_missEntry_eq strokeFn2 ctx scene2 font key g off2 size2 opts2 E evs
                hE h2 hc hok2]
          | error e =>
            have herr1 : font.glyph g opts1.hintingOptions = .error e := by rw [h1]; exact hfg
            have herr2 : font.glyph g opts2.hintingOptions = .error e := by rw [h2]; exact hfg
            have hm1 : cachedOutlineOf
                (resolveEntry (resolveCtx ctx font (some key)) font (some key)) g opts1 = none := by
              rw [resolveCtx_present _ font _ _ hE, resolveEntry_some _ font _ _ hE]
              simp [cachedOutlineOf, h1, hc]
            have hm2 : cachedOutlineOf
                (resolveEntry (resolveCtx ctx font (some key)) font (some key)) g opts2 = none := by
              rw [resolveCtx_present _ font _ _ hE, resolveEntry_some _ font _ _ hE]
              simp [cachedOutlineOf, h2, hc]
            rw [pushGlyph_error_eq strokeFn1 ctx scene1 font (some key) g off1 size1 opts1 e
                hm1 herr1,
              pushGlyph_error_eq strokeFn2 ctx scene2 font (some key) g off2 size2 opts2 e
                hm2 herr2]
      | none =>
        cases hfg : font.glyph g HintingOptions.none with
        | ok evs =>
          have hok1 : font.glyph g opts1.hintingOptions = .ok evs := by rw [h1]; exact hfg
          have hok2 : font.glyph g opts2.hintingOptions = .ok evs := by rw [h2]; exact hfg
          rw [pushGlyph_missFresh_eq strokeFn1 ctx scene1 font key g off1 size1 opts1 evs
              hE h1 hok1,
            pushGlyph_missFresh_eq strokeFn2 ctx scene2 font key g off2 size2 opts2 evs
              hE h2 hok2]
        | error e =>
          have herr1 : font.glyph g opts1.hintingOptions = .error e := by rw [h1]; exact hfg
          have herr2 : font.glyph g opts2.hintingOptions = .error e := by rw [h2]; exact hfg
          have hfind : assocFind (assocReplace ctx.fontInfo key (FontInfo.new font)) key =
              some (FontInfo.new font) := assocFind_replace_self _ _ _
          have hm : cachedOutlineOf
              (resolveEntry (resolveCtx ctx font (some key)) font (some key)) g opts1 = none := by
            rw [resolveCtx_absent _ font _ hE, resolveEntry_some _ font _ _ hfind]
            simp
          have hm2 : cachedOutlineOf
              (resolveEntry (resolveCtx ctx font (some key)) font (some key)) g opts2 = none := by
            rw [resolveCtx_absent _ font _ hE, resolveEntry_some _ font _ _ hfind]
            simp
          rw [pushGlyph_error_eq strokeFn1 ctx scene1 font (some key) g off1 size1 opts1 e
              hm herr1,
            pushGlyph_error_eq strokeFn2 ctx scene2 font (some key) g off2 size2 opts2 e
              hm2 herr2]
    · have h2 : opts2.hintingOptions ≠ HintingOptions.none := hh ▸ h1
      rw [pushGlyph_hinted_ctx strokeFn1 ctx scene1 font (some key) g off1 size1 opts1 h1,
        pushGlyph_hinted_ctx strokeFn2 ctx scene2 font (some key) g off2 size2 opts2 h2]

/-- C2: Cache-content invariant: the context (hence every stored outline)
produced by push_glyph never depends on the per-call offset, font size,
render transform, render mode, paint, clip, blend or stroke converter
(only the hinting mode matters); a cache hit leaves the context unchanged
(only a clone is transformed); and a cacheable miss inserts exactly the
raw outline built with the fixed units-per-em builder transform, before
any render transform touches the local copy. -/
theorem pushGlyph_cache_content_invariant (strokeFn1 strokeFn2 : StrokeFn)
    (ctx : FontContext) (scene1 scene2 : Scene) (font : Font) (k : Option String)
    (key : String) (g : GlyphId) (off1 off2 : Vector2F) (size1 size2 : ℚ)
    (opts1 opts2 : FontRenderOptions)
    (hh : opts1.hintingOptions = opts2.hintingOptions) :
    (pushGlyph strokeFn1 ctx scene1 font k g off1 size1 opts1).ctx =
      (pushGlyph strokeFn2 ctx scene2 font k g off2 size2 opts2).ctx ∧
    (∀ E c, opts1.hintingOptions = HintingOptions.none →
      assocFind ctx.fontInfo key = some E →
      assocFind E.outlineCache g = some c →
      (pushGlyph strokeFn1 ctx scene1 font (some key) g off1 size1 opts1).ctx = ctx) ∧
    (∀ evs, opts1.hintingOptions = HintingOptions.none →
      lookupOutline ctx key g = none →
      font.glyph g HintingOptions.none = .ok evs →
      lookupOutline
          (pushGlyph strokeFn1 ctx scene1 font (some key) g off1 size1 opts1).ctx key g =
        some (buildOutline evs
          (Transform2F.fromScale
            ⟨(((assocFind ctx.fontInfo key).getD (FontInfo.new font)).metrics.unitsPerEm : ℚ),
             (((assocFind ctx.fontInfo key).getD (FontInfo.new font)).metrics.unitsPerEm : ℚ)⟩))) := by
  refine ⟨pushGlyph_ctx_only_hinting strokeFn1 strokeFn2 ctx scene1 scene2 font k g
      off1 off2 size1 size2 opts1 opts2 hh, ?_, ?_⟩
  · intro E c h1 hE hc
    rw [pushGlyph_hit_eq strokeFn1 ctx scene1 font key g off1 size1 opts1 E c hE h1 hc]
  · intro evs h1 hlk hok
    have hok1 : font.glyph g opts1.hintingOptions = .ok evs := by rw [h1]; exact hok
    cases hE : assocFind ctx.fontInfo key with
    | some E =>
      have hc : assocFind E.outlineCache g = none := by
        unfold lookupOutline at hlk
        rw [hE] at hlk
        exact hlk
      rw [pushGlyph_missEntry_eq strokeFn1 ctx scene1 font key g off1 size1 opts1 E evs
          hE h1 hc hok1]
      simp [lookupOutline, assocFind_replace_self, hE]
    | none =>
      rw [pushGlyph_missFresh_eq strokeFn1 ctx scene1 font key g off1 size1 opts1 evs
          hE h1 hok1]
      simp [lookupOutline, assocFind_replace_self, assocFind, FontInfo.new, hE]

theorem pushGlyph_cache_content_invariant_witness :
    lookupOutline
        (pushGlyph idStrokeFn FontContext.new [] testFont (some keyA) 1 ⟨0, 0⟩ 10
          (fillOpts ⟨1, 0, 0, 1, 5, 6⟩)).ctx keyA 1 =
      some (buildOutline [.moveTo ⟨1, 2⟩, .lineTo ⟨3, 4⟩]
        (Transform2F.fromScale
          ⟨(((assocFind FontContext.new.fontInfo keyA).getD
              (FontInfo.new testFont)).metrics.unitsPerEm : ℚ),
           (((assocFind FontContext.new.fontInfo keyA).getD
              (FontInfo.new testFont)).metrics.unitsPerEm : ℚ)⟩)) :=
  (pushGlyph_cache_content_invariant idStrokeFn idStrokeFn FontContext.new [] [] testFont
    (some keyA) keyA 1 ⟨0, 0⟩ ⟨1, 1⟩ 10 20 (fillOpts ⟨1, 0, 0, 1, 5, 6⟩)
    (fillOpts ⟨2, 0, 0, 2, 0, 0⟩) rfl).2.2 [.moveTo ⟨1, 2⟩, .lineTo ⟨3, 4⟩] rfl rfl rfl

/-- C3: Hinting exclusion: a push_glyph call with a hinting mode other
than None neither inserts into nor reads from any outline cache: every
cached outline is exactly as before the call, the call's scene output
and result coincide with those from a context whose outline caches are
all empty (the outline is extracted directly from the font capability),
and any number of such calls leaves every cache lookup unchanged. -/
theorem pushGlyph_hinting_exclusion (strokeFn : StrokeFn) (ctx : FontContext) (scene : Scene)
    (font : Font) (k : Option String) (g : GlyphId) (off : Vector2F) (size : ℚ)
    (opts : FontRenderOptions) (calls : List (Vector2F × ℚ × FontRenderOptions))
    (hh : opts.hintingOptions ≠ HintingOptions.none)
    (hcalls : ∀ c ∈ calls, (c.2.2 : FontRenderOptions).hintingOptions ≠ HintingOptions.none) :
    (∀ k' g', lookupOutline (pushGlyph strokeFn ctx scene font k g off size opts).ctx k' g' =
      lookupOutline ctx k' g') ∧
    (pushGlyph strokeFn ctx scene font k g off size opts).scene =
      (pushGlyph strokeFn (clearCaches ctx) scene font k g off size opts).scene ∧
    (pushGlyph strokeFn ctx scene font k g off size opts).result =
      (pushGlyph strokeFn (clearCaches ctx) scene font k g off size opts).result ∧
    (∀ k' g', lookupOutline (pushGlyphCalls strokeFn ctx scene font k g calls).1 k' g' =
      lookupOutline ctx k' g') := by
  refine ⟨fun k' g' => pushGlyph_hinted_lookup strokeFn ctx scene font k g off size opts hh k' g',
    (pushGlyph_hinted_noread strokeFn ctx scene font k g off size opts hh).1,
    (pushGlyph_hinted_noread strokeFn ctx scene font k g off size opts hh).2,
    fun k' g' => pushGlyphCalls_hinted_lookup strokeFn font k g calls ctx scene hcalls k' g'⟩

theorem pushGlyph_hinting_exclusion_witness :
    lookupOutline
        (pushGlyph idStrokeFn FontContext.new [] testFont (some keyA) 1 ⟨0, 0⟩ 10
          hintedOpts).ctx keyA 1 =
      lookupOutline FontContext.new keyA 1 ∧
    lookupOutline
        (pushGlyphCalls idStrokeFn FontContext.new [] testFont (some keyA) 1
          [(⟨0, 0⟩, 10, hintedOpts), (⟨1, 1⟩, 20, hintedOpts)]).1 keyA 1 =
      lookupOutline FontContext.new keyA 1 := by
  have h := pushGlyph_hinting_exclusion idStrokeFn FontContext.new [] testFont (some keyA) 1
    ⟨0, 0⟩ 10 hintedOpts [(⟨0, 0⟩, 10, hintedOpts), (⟨1, 1⟩, 20, hintedOpts)]
    (by decide) (by decide)
  exact ⟨h.1 keyA 1, h.2.2.2 keyA 1⟩

/-- C5: Glyph-level error atomicity: when outline extraction fails for
the requested glyph (and the call reaches extraction, i.e. the glyph is
not served from the cache), push_glyph returns exactly that error, appends
nothing to the scene, and leaves every cached outline unchanged. -/
theorem pushGlyph_error_atomicity (strokeFn : StrokeFn) (ctx : FontContext) (scene : Scene)
    (font : Font) (k : Option String) (g : GlyphId) (off : Vector2F) (size : ℚ)
    (opts : FontRenderOptions) (e : GlyphLoadingError)
    (herr : font.glyph g opts.hintingOptions = .error e)
    (hmiss : opts.hintingOptions = HintingOptions.none → lookupOutlineOpt ctx k g = none) :
    (pushGlyph strokeFn ctx scene font k g off size opts).result = some e ∧
    (pushGlyph strokeFn ctx scene font k g off size opts).scene = scene ∧
    (∀ k' g', lookupOutline (pushGlyph strokeFn ctx scene font k g off size opts).ctx k' g' =
      lookupOutline ctx k' g') := by
  have hm : cachedOutlineOf (resolveEntry (resolveCtx ctx font k) font k) g opts = none := by
    by_cases h1 : opts.hintingOptions = HintingOptions.none
    · have hlk := hmiss h1
      cases k with
      | none => simp [resolveCtx, resolveEntry, cachedOutlineOf, FontInfo.new, assocFind]
      | some key =>
        cases hE : assocFind ctx.fontInfo key with
        | some E =>
          rw [resolveCtx_present _ font _ _ hE, resolveEntry_some _ font _ _ hE]
          simp only [lookupOutlineOpt, lookupOutline, hE] at hlk
          simp [cachedOutlineOf, h1, hlk]
        | none =>
          rw [resolveCtx_absent _ font _ hE,
            resolveEntry_some _ font _ _ (assocFind_replace_self _ _ _)]
          simp [cachedOutlineOf, FontInfo.new, assocFind]
    · simp [cachedOutlineOf, h1]
  rw [pushGlyph_error_eq strokeFn ctx scene font k g off size opts e hm herr]
  exact ⟨rfl, rfl, fun k' g' => lookupOutline_resolveCtx ctx font k k' g'⟩

theorem pushGlyph_error_atomicity_witness :
    (pushGlyph idStrokeFn FontContext.new [] testFont (some keyA) 7 ⟨0, 0⟩ 10
      (fillOpts ⟨1, 0, 0, 1, 0, 0⟩)).result = some GlyphLoadingError.noSuchGlyph ∧
    (pushGlyph idStrokeFn FontContext.new [] testFont (some keyA) 7 ⟨0, 0⟩ 10
      (fillOpts ⟨1, 0, 0, 1, 0, 0⟩)).scene = [] ∧
    lookupOutline
        (pushGlyph idStrokeFn FontContext.new [] testFont (some keyA) 7 ⟨0, 0⟩ 10
          (fillOpts ⟨1, 0, 0, 1, 0, 0⟩)).ctx keyA 7 =
      lookupOutline FontContext.new keyA 7 := by
  have h := pushGlyph_error_atomicity idStrokeFn FontContext.new [] testFont (some keyA) 7
    ⟨0, 0⟩ 10 (fillOpts ⟨1, 0, 0, 1, 0, 0⟩) GlyphLoadingError.noSuchGlyph rfl
    (fun _ => rfl)
  exact ⟨h.1, h.2.1, h.2.2 keyA 7⟩

/-- C10: Key-collision behaviour: when the key already maps to an entry,
push_glyph reuses that entry unchanged: the stored font and metrics
survive the call, the call's entire behaviour depends on the font
argument only through its outline source (its metrics and name are never
consulted), and a cacheable miss extracts from the argument font while
scaling by the stored entry's units-per-em. -/
theorem pushGlyph_key_collision (strokeFn : StrokeFn) (ctx : FontContext) (scene : Scene)
    (font font2 : Font) (key : String) (g : GlyphId) (off : Vector2F) (size : ℚ)
    (opts : FontRenderOptions) (E : FontInfo)
    (hE : assocFind ctx.fontInfo key = some E) :
    (∃ E2, assocFind
        (pushGlyph strokeFn ctx scene font (some key) g off size opts).ctx.fontInfo key =
          some E2 ∧ E2.font = E.font ∧ E2.metrics = E.metrics) ∧
    (font2.glyph = font.glyph →
      pushGlyph strokeFn ctx scene font2 (some key) g off size opts =
        pushGlyph strokeFn ctx scene font (some key) g off size opts) ∧
    (∀ evs, opts.hintingOptions = HintingOptions.none →
      assocFind E.outlineCache g = none →
      font.glyph g HintingOptions.none = .ok evs →
      lookupOutline
          (pushGlyph strokeFn ctx scene font (some key) g off size opts).ctx key g =
        some (buildOutline evs
          (Transform2F.fromScale ⟨(E.metrics.unitsPerEm : ℚ), (E.metrics.unitsPerEm : ℚ)⟩))) := by
  have hmE : ∀ h1 : opts.hintingOptions = HintingOptions.none,
      assocFind E.outlineCache g = none →
      cachedOutlineOf (resolveEntry (resolveCtx ctx font (some key)) font (some key)) g opts =
        none := by
    intro h1 hc
    rw [resolveCtx_present _ font _ _ hE, resolveEntry_some _ font _ _ hE]
    simp [cachedOutlineOf, h1, hc]
  refine ⟨?_, ?_, ?_⟩
  · by_cases h1 : opts.hintingOptions = HintingOptions.none
    · cases hc : assocFind E.outlineCache g with
      | some c =>
        rw [pushGlyph_hit_eq strokeFn ctx scene font key g off size opts E c hE h1 hc]
        exact ⟨E, hE, rfl, rfl⟩
      | none =>
        cases hfg : font.glyph g opts.hintingOptions with
        | ok evs =>
          rw [pushGlyph_missEntry_eq strokeFn ctx scene font key g off size opts E evs
              hE h1 hc hfg]
          exact ⟨⟨E.font, E.metrics, _⟩, assocFind_replace_self _ _ _, rfl, rfl⟩
        | error e =>
          rw [pushGlyph_error_eq strokeFn ctx scene font (some key) g off size opts e
              (hmE h1 hc) hfg, resolveCtx_present _ font _ _ hE]
          exact ⟨E, hE, rfl, rfl⟩
    · rw [pushGlyph_hinted_ctx strokeFn ctx scene font (some key) g off size opts h1,
        resolveCtx_present _ font _ _ hE]
      exact ⟨E, hE, rfl, rfl⟩
  · intro hgl
    by_cases h1 : opts.hintingOptions = HintingOptions.none
    · cases hc : assocFind E.outlineCache g with
      | some c =>
        rw [pushGlyph_hit_eq strokeFn ctx scene font2 key g off size opts E c hE h1 hc,
          pushGlyph_hit_eq strokeFn ctx scene font key g off size opts E c hE h1 hc]
      | none =>
        cases hfg : font.glyph g opts.hintingOptions with
        | ok evs =>
          have hfg2 : font2.glyph g opts.hintingOptions = .ok evs := by rw [hgl]; exact hfg
          rw [pushGlyph_missEntry_eq strokeFn ctx scene font2 key g off size opts E evs
              hE h1 hc hfg2,
            pushGlyph_missEntry_eq strokeFn ctx scene font key g off size opts E evs
              hE h1 hc hfg]
        | error e =>
          have hfg2 : font2.glyph g opts.hintingOptions = .error e := by rw [hgl]; exact hfg
          have hmE2 : cachedOutlineOf
              (resolveEntry (resolveCtx ctx font2 (some key)) font2 (some key)) g opts =
                none := by
            rw [resolveCtx_present _ font2 _ _ hE, resolveEntry_some _ font2 _ _ hE]
            simp [cachedOutlineOf, h1, hc]
          rw [pushGlyph_error_eq strokeFn ctx scene font2 (some key) g off size opts e
              hmE2 hfg2,
            pushGlyph_error_eq strokeFn ctx scene font (some key) g off size opts e
              (hmE h1 hc) hfg,
            resolveCtx_present _ font2 _ _ hE, resolveCtx_present _ font _ _ hE]
    · cases hfg : font.glyph g opts.hintingOptions with
      | ok evs =>
        have hfg2 : font2.glyph g opts.hintingOptions = .ok evs := by rw [hgl]; exact hfg
        rw [pushGlyph_unhinted_eq strokeFn ctx scene font2 (some key) g off size opts evs
            h1 hfg2,
          pushGlyph_unhinted_eq strokeFn ctx scene font (some key) g off size opts evs
            h1 hfg,
          resolveCtx_present _ font2 _ _ hE, resolveCtx_present _ font _ _ hE,
          resolveEntry_some _ font2 _ _ hE, resolveEntry_some _ font _ _ hE]
      | error e =>
        have hfg2 : font2.glyph g opts.hintingOptions = .error e := by rw [hgl]; exact hfg
        have hm1 : cachedOutlineOf
            (resolveEntry (resolveCtx ctx font (some key)) font (some key)) g opts = none := by
          simp [cachedOutlineOf, h1]
        have hm2 : cachedOutlineOf
            (resolveEntry (resolveCtx ctx font2 (some key)) font2 (some key)) g opts = none := by
          simp [cachedOutlineOf, h1]
        rw [pushGlyph_error_eq strokeFn ctx scene font2 (some key) g off size opts e
            hm2 hfg2,
          pushGlyph_error_eq strokeFn ctx scene font (some key) g off size opts e
            hm1 hfg,
          resolveCtx_present _ font2 _ _ hE, resolveCtx_present _ font _ _ hE]
  · intro evs h1 hc hok
    have hok1 : font.glyph g opts.hintingOptions = .ok evs := by rw [h1]; exact hok
    rw [pushGlyph_missEntry_eq strokeFn ctx scene font key g off size opts E evs
        hE h1 hc hok1]
    simp [lookupOutline, assocFind_replace_self]

theorem pushGlyph_key_collision_witness :
    pushGlyph idStrokeFn ⟨[(keyA, FontInfo.new testFont)]⟩ [] ⟨⟨1000⟩, testFont.glyph, none⟩
        (some keyA) 1 ⟨0, 0⟩ 10 (fillOpts ⟨1, 0, 0, 1, 0, 0⟩) =
      pushGlyph idStrokeFn ⟨[(keyA, FontInfo.new testFont)]⟩ [] testFont (some keyA) 1
        ⟨0, 0⟩ 10 (fillOpts ⟨1, 0, 0, 1, 0, 0⟩) ∧
    lookupOutline
        (pushGlyph idStrokeFn ⟨[(keyA, FontInfo.new testFont)]⟩ [] testFont (some keyA) 1
          ⟨0, 0⟩ 10 (fillOpts ⟨1, 0, 0, 1, 0, 0⟩)).ctx keyA 1 =
      some (buildOutline [.moveTo ⟨1, 2⟩, .lineTo ⟨3, 4⟩]
        (Transform2F.fromScale
          ⟨((FontInfo.new testFont).metrics.unitsPerEm : ℚ),
           ((FontInfo.new testFont).metrics.unitsPerEm : ℚ)⟩)) := by
  have h := pushGlyph_key_collision idStrokeFn ⟨[(keyA, FontInfo.new testFont)]⟩ []
    testFont ⟨⟨1000⟩, testFont.glyph, none⟩ keyA 1 ⟨0, 0⟩ 10
    (fillOpts ⟨1, 0, 0, 1, 0, 0⟩) (FontInfo.new testFont) rfl
  exact ⟨h.2.1 rfl, h.2.2 [.moveTo ⟨1, 2⟩, .lineTo ⟨3, 4⟩] rfl rfl rfl⟩

/-- C1: Cache transparency: starting from a context in which the glyph is
uncached, a first hinting-free call populates the cache with the
units-per-em-normalised outline B, and a second hinting-free call with
different offset/size/transform (a cache hit, clone-then-transform path)
appends exactly the DrawPath that the cache-miss path would append for
the same arguments from the uncached context; both calls' outputs are B
under their own render transform composed with the 1/unitsPerEm
normalisation, so the two outputs differ exactly by the corresponding
transform composition. -/
theorem pushGlyph_cache_transparency (strokeFn : StrokeFn) (ctx : FontContext)
    (scene1 scene2 : Scene) (font : Font) (key : String) (g : GlyphId)
    (off1 off2 : Vector2F) (size1 size2 : ℚ) (opts1 opts2 : FontRenderOptions)
    (evs : List PathEvent)
    (h1 : opts1.hintingOptions = HintingOptions.none)
    (h2 : opts2.hintingOptions = HintingOptions.none)
    (hmiss : lookupOutline ctx key g = none)
    (hok : font.glyph g HintingOptions.none = .ok evs) :
    ∃ B m,
      lookupOutline
          (pushGlyph strokeFn ctx scene1 font (some key) g off1 size1 opts1).ctx key g =
        some B ∧
      B = buildOutline evs
        (Transform2F.fromScale ⟨(m.unitsPerEm : ℚ), (m.unitsPerEm : ℚ)⟩) ∧
      (pushGlyph strokeFn ctx scene1 font (some key) g off1 size1 opts1).scene =
        scene1 ++
          [⟨applyRenderMode strokeFn opts1.renderMode
              (B.transform (renderTransformOf m size1 off1 opts1 *
                Transform2F.fromScale ⟨1 / (m.unitsPerEm : ℚ), 1 / (m.unitsPerEm : ℚ)⟩)),
            opts1.paintId, opts1.clipPath, opts1.blendMode⟩] ∧
      ∃ p,
        (pushGlyph strokeFn
            (pushGlyph strokeFn ctx scene1 font (some key) g off1 size1 opts1).ctx
            (pushGlyph strokeFn ctx scene1 font (some key) g off1 size1 opts1).scene
            font (some key) g off2 size2 opts2).scene =
          (pushGlyph strokeFn ctx scene1 font (some key) g off1 size1 opts1).scene ++ [p] ∧
        (pushGlyph strokeFn ctx scene2 font (some key) g off2 size2 opts2).scene =
          scene2 ++ [p] ∧
        p = ⟨applyRenderMode strokeFn opts2.renderMode
              (B.transform (renderTransformOf m size2 off2 opts2 *
                Transform2F.fromScale ⟨1 / (m.unitsPerEm : ℚ), 1 / (m.unitsPerEm : ℚ)⟩)),
            opts2.paintId, opts2.clipPath, opts2.blendMode⟩ := by
  have hok1 : font.glyph g opts1.hintingOptions = .ok evs := by rw [h1]; exact hok
  have hok2 : font.glyph g opts2.hintingOptions = .ok evs := by rw [h2]; exact hok
  cases hE : assocFind ctx.fontInfo key with
  | some E =>
    have hc : assocFind E.outlineCache g = none := by
      simp only [lookupOutline, hE] at hmiss
      exact hmiss
    rw [pushGlyph_missEntry_eq strokeFn ctx scene1 font key g off1 size1 opts1 E evs
        hE h1 hc hok1]
    refine ⟨buildOutline evs
        (Transform2F.fromScale ⟨(E.metrics.unitsPerEm : ℚ), (E.metrics.unitsPerEm : ℚ)⟩),
      E.metrics, ?_, rfl, rfl, ?_⟩
    · simp [lookupOutline, assocFind_replace_self]
    · have hE2 : assocFind
          ((⟨assocReplace ctx.fontInfo key
            ⟨E.font, E.metrics,
             assocReplace E.outlineCache g
               (buildOutline evs
                 (Transform2F.fromScale
                   ⟨(E.metrics.unitsPerEm : ℚ), (E.metrics.unitsPerEm : ℚ)⟩))⟩⟩ :
            FontContext)).fontInfo key =
          some ⟨E.font, E.metrics,
            assocReplace E.outlineCache g
              (buildOutline evs
                (Transform2F.fromScale
                  ⟨(E.metrics.unitsPerEm : ℚ), (E.metrics.unitsPerEm : ℚ)⟩))⟩ :=
        assocFind_replace_self _ _ _
      have hc2 : assocFind
          (assocReplace E.outlineCache g
            (buildOutline evs
              (Transform2F.fromScale
                ⟨(E.metrics.unitsPerEm : ℚ), (E.metrics.unitsPerEm : ℚ)⟩))) g =
          some (buildOutline evs
            (Transform2F.fromScale
              ⟨(E.metrics.unitsPerEm : ℚ), (E.metrics.unitsPerEm : ℚ)⟩)) :=
        assocFind_replace_self _ _ _
      rw [pushGlyph_hit_eq strokeFn _ _ font key g off2 size2 opts2 _ _ hE2 h2 hc2,
        pushGlyph_missEntry_eq strokeFn ctx scene2 font key g off2 size2 opts2 E evs
          hE h2 hc hok2]
      exact ⟨_, rfl, rfl, rfl⟩
  | none =>
    rw [pushGlyph_missFresh_eq strokeFn ctx scene1 font key g off1 size1 opts1 evs
        hE h1 hok1]
    refine ⟨buildOutline evs
        (Transform2F.fromScale
          ⟨(font.metrics.unitsPerEm : ℚ), (font.metrics.unitsPerEm : ℚ)⟩),
      font.metrics, ?_, rfl, rfl, ?_⟩
    · simp [lookupOutline, assocFind_replace_self, assocFind]
    · have hE2 : assocFind
          ((⟨assocReplace (assocReplace ctx.fontInfo key (FontInfo.new font)) key
            ⟨font, font.metrics,
             [(g, buildOutline evs
                (Transform2F.fromScale
                  ⟨(font.metrics.unitsPerEm : ℚ), (font.metrics.unitsPerEm : ℚ)⟩))]⟩⟩ :
            FontContext)).fontInfo key =
          some ⟨font, font.metrics,
            [(g, buildOutline evs
               (Transform2F.fromScale
                 ⟨(font.metrics.unitsPerEm : ℚ), (font.metrics.unitsPerEm : ℚ)⟩))]⟩ :=
        assocFind_replace_self _ _ _
      have hc2 : assocFind
          ([(g, buildOutline evs
             (Transform2F.fromScale
               ⟨(font.metrics.unitsPerEm : ℚ), (font.metrics.unitsPerEm : ℚ)⟩))] :
            List (GlyphId × Outline)) g =
          some (buildOutline evs
            (Transform2F.fromScale
              ⟨(font.metrics.unitsPerEm : ℚ), (font.metrics.unitsPerEm : ℚ)⟩)) := by
        simp [assocFind]
      rw [pushGlyph_hit_eq strokeFn _ _ font key g off2 size2 opts2 _ _ hE2 h2 hc2,
        pushGlyph_missFresh_eq strokeFn ctx scene2 font key g off2 size2 opts2 evs
          hE h2 hok2]
      exact ⟨_, rfl, rfl, rfl⟩

theorem pushGlyph_cache_transparency_witness :
    ∃ B m,
      lookupOutline
          (pushGlyph idStrokeFn FontContext.new [] testFont (some keyA) 1 ⟨0, 0⟩ 10
            (fillOpts ⟨1, 0, 0, 1, 5, 6⟩)).ctx keyA 1 =
        some B ∧
      B = buildOutline [.moveTo ⟨1, 2⟩, .lineTo ⟨3, 4⟩]
        (Transform2F.fromScale ⟨(m.unitsPerEm : ℚ), (m.unitsPerEm : ℚ)⟩) ∧
      (pushGlyph idStrokeFn FontContext.new [] testFont (some keyA) 1 ⟨0, 0⟩ 10
          (fillOpts ⟨1, 0, 0, 1, 5, 6⟩)).scene =
        [] ++
          [⟨applyRenderMode idStrokeFn (fillOpts ⟨1, 0, 0, 1, 5, 6⟩).renderMode
              (B.transform (renderTransformOf m 10 ⟨0, 0⟩ (fillOpts ⟨1, 0, 0, 1, 5, 6⟩) *
                Transform2F.fromScale ⟨1 / (m.unitsPerEm : ℚ), 1 / (m.unitsPerEm : ℚ)⟩)),
            (fillOpts ⟨1, 0, 0, 1, 5, 6⟩).paintId, (fillOpts ⟨1, 0, 0, 1, 5, 6⟩).clipPath,
            (fillOpts ⟨1, 0, 0, 1, 5, 6⟩).blendMode⟩] ∧
      ∃ p,
        (pushGlyph idStrokeFn
            (pushGlyph idStrokeFn FontContext.new [] testFont (some keyA) 1 ⟨0, 0⟩ 10
              (fillOpts ⟨1, 0, 0, 1, 5, 6⟩)).ctx
            (pushGlyph idStrokeFn FontContext.new [] testFont (some keyA) 1 ⟨0, 0⟩ 10
              (fillOpts ⟨1, 0, 0, 1, 5, 6⟩)).scene
            testFont (some keyA) 1 ⟨1, 1⟩ 20 (fillOpts ⟨2, 0, 0, 2, 0, 0⟩)).scene =
          (pushGlyph idStrokeFn FontContext.new [] testFont (some keyA) 1 ⟨0, 0⟩ 10
            (fillOpts ⟨1, 0, 0, 1, 5, 6⟩)).scene ++ [p] ∧
        (pushGlyph idStrokeFn FontContext.new [] testFont (some keyA) 1 ⟨1, 1⟩ 20
            (fillOpts ⟨2, 0, 0, 2, 0, 0⟩)).scene = [] ++ [p] ∧
        p = ⟨applyRenderMode idStrokeFn (fillOpts ⟨2, 0, 0, 2, 0, 0⟩).renderMode
              (B.transform (renderTransformOf m 20 ⟨1, 1⟩ (fillOpts ⟨2, 0, 0, 2, 0, 0⟩) *
                Transform2F.fromScale ⟨1 / (m.unitsPerEm : ℚ), 1 / (m.unitsPerEm : ℚ)⟩)),
            (fillOpts ⟨2, 0, 0, 2, 0, 0⟩).paintId, (fillOpts ⟨2, 0, 0, 2, 0, 0⟩).clipPath,
            (fillOpts ⟨2, 0, 0, 2, 0, 0⟩).blendMode⟩ :=
  pushGlyph_cache_transparency idStrokeFn FontContext.new [] [] testFont keyA 1
    ⟨0, 0⟩ ⟨1, 1⟩ 10 20 (fillOpts ⟨1, 0, 0, 1, 5, 6⟩) (fillOpts ⟨2, 0, 0, 2, 0, 0⟩)
    [.moveTo ⟨1, 2⟩, .lineTo ⟨3, 4⟩] rfl rfl rfl rfl

/-! Scene-shape lemmas for the layout loop. -/

theorem pushGlyph_scene_shape (strokeFn : StrokeFn) (ctx : FontContext) (scene : Scene)
    (font : Font) (k : Option String) (g : GlyphId) (off : Vector2F) (size : ℚ)
    (opts : FontRenderOptions) :
    (∃ p, (pushGlyph strokeFn ctx scene font k g off size opts).scene = scene ++ [p] ∧
      (pushGlyph strokeFn ctx scene font k g off size opts).result = none) ∨
    ((pushGlyph strokeFn ctx scene font k g off size opts).scene = scene ∧
      ∃ e, (pushGlyph strokeFn ctx scene font k g off size opts).result = some e) := by
  cases hco : cachedOutlineOf (resolveEntry (resolveCtx ctx font k) font k) g opts with
  | some c =>
    simp only [pushGlyph, hco]
    exact Or.inl ⟨_, rfl, rfl⟩
  | none =>
    cases hfg : font.glyph g opts.hintingOptions with
    | error e =>
      refine Or.inr ⟨?_, e, ?_⟩ <;> simp [pushGlyph, hco, hfg]
    | ok evs =>
      simp only [pushGlyph, hco, hfg]
      split
      · exact Or.inl ⟨_, rfl, rfl⟩
      · exact Or.inl ⟨_, rfl, rfl⟩

theorem pushLayoutAux_scene_shape (strokeFn : StrokeFn) (size : ℚ)
    (opts : FontRenderOptions) :
    ∀ (glyphs : List LGlyph) (ctx : FontContext) (scene : Scene)
      (memo : Option CachedFontKey),
    ∃ ps, (pushLayoutAux strokeFn ctx scene glyphs size opts memo).scene = scene ++ ps ∧
      ((pushLayoutAux strokeFn ctx scene glyphs size opts memo).result = none →
        ps.length = glyphs.length) := by
  intro glyphs
  induction glyphs with
  | nil => intro ctx scene memo; exact ⟨[], by simp [pushLayoutAux], fun _ => rfl⟩
  | cons g gs ih =>
    intro ctx scene memo
    obtain ⟨m1, hstep⟩ : ∃ m1 : CachedFontKey,
        pushLayoutAux strokeFn ctx scene (g :: gs) size opts memo =
          (let r := pushGlyph strokeFn ctx scene m1.font m1.key g.glyphId g.offset size opts
           match r.result with
           | some e => ⟨r.ctx, r.scene, some e⟩
           | none => pushLayoutAux strokeFn r.ctx r.scene gs size opts (some m1)) :=
      ⟨_, rfl⟩
    rw [hstep]
    rcases pushGlyph_scene_shape strokeFn ctx scene m1.font m1.key g.glyphId g.offset size
        opts with ⟨p, hs, hr⟩ | ⟨hs, e, hr⟩
    · obtain ⟨ps, hps, hlen⟩ := ih
        (pushGlyph strokeFn ctx scene m1.font m1.key g.glyphId g.offset size opts).ctx
        (pushGlyph strokeFn ctx scene m1.font m1.key g.glyphId g.offset size opts).scene
        (some m1)
      refine ⟨p :: ps, ?_, ?_⟩
      · simp only [hr]
        rw [hps, hs]
        simp
      · intro hnone
        simp only [hr] at hnone
        simp [hlen hnone]
    · refine ⟨[], ?_, ?_⟩
      · simp only [hr]
        rw [hs]
        simp
      · intro hnone
        simp only [hr] at hnone
        simp at hnone

/-- C8: Layout-level error propagation: push_layout processes glyphs in
order, each successful glyph appends exactly one DrawPath, the first
failing glyph stops the loop and its error is returned with the earlier
appends kept (no rollback); in the concrete six-glyph layout whose fourth
glyph (zero-indexed 3) fails extraction, the call returns the error after
exactly 3 scene appends and the scene holds exactly the 3 paths of the
successful prefix. -/
theorem pushLayout_error_propagation :
    (∀ (strokeFn : StrokeFn) (ctx : FontContext) (scene : Scene) (glyphs : List LGlyph)
        (style : TextStyle) (opts : FontRenderOptions),
      ∃ ps, (pushLayout strokeFn ctx scene glyphs style opts).scene = scene ++ ps ∧
        ((pushLayout strokeFn ctx scene glyphs style opts).result = none →
          ps.length = glyphs.length)) ∧
    (pushLayout idStrokeFn FontContext.new [] layoutSix ⟨10⟩
        (fillOpts ⟨1, 0, 0, 1, 0, 0⟩)).result = some GlyphLoadingError.noSuchGlyph ∧
    (pushLayout idStrokeFn FontContext.new [] layoutSix ⟨10⟩
        (fillOpts ⟨1, 0, 0, 1, 0, 0⟩)).scene.length = 3 ∧
    (pushLayout idStrokeFn FontContext.new [] layoutSix ⟨10⟩
        (fillOpts ⟨1, 0, 0, 1, 0, 0⟩)).scene =
      (pushLayout idStrokeFn FontContext.new [] layoutThree ⟨10⟩
        (fillOpts ⟨1, 0, 0, 1, 0, 0⟩)).scene := by
  refine ⟨fun strokeFn ctx scene glyphs style opts =>
    pushLayoutAux_scene_shape strokeFn style.size opts glyphs ctx scene none, ?_, ?_, ?_⟩
  · rfl
  · rfl
  · rfl

theorem pushLayout_error_propagation_witness :
    (∃ ps, (pushLayout idStrokeFn FontContext.new [] layoutThree ⟨10⟩
        (fillOpts ⟨1, 0, 0, 1, 0, 0⟩)).scene = [] ++ ps ∧
      ((pushLayout idStrokeFn FontContext.new [] layoutThree ⟨10⟩
          (fillOpts ⟨1, 0, 0, 1, 0, 0⟩)).result = none →
        ps.length = layoutThree.length)) ∧
    (pushLayout idStrokeFn FontContext.new [] layoutSix ⟨10⟩
        (fillOpts ⟨1, 0, 0, 1, 0, 0⟩)).result = some GlyphLoadingError.noSuchGlyph := by
  have h := pushLayout_error_propagation
  exact ⟨h.1 idStrokeFn FontContext.new [] layoutThree ⟨10⟩ (fillOpts ⟨1, 0, 0, 1, 0, 0⟩),
    h.2.1⟩

theorem pushLayoutAux_memo_naive (strokeFn : StrokeFn) (size : ℚ)
    (opts : FontRenderOptions) :
    ∀ (glyphs : List LGlyph) (ctx : FontContext) (scene : Scene)
      (memo : Option CachedFontKey),
    (∀ m, memo = some m → m.key = m.font.postscriptName) →
    (∀ m, memo = some m → ∀ g ∈ glyphs, g.fontPtr = m.fontPtr → g.font = m.font) →
    (∀ g₁ ∈ glyphs, ∀ g₂ ∈ glyphs,
      LGlyph.fontPtr g₁ = LGlyph.fontPtr g₂ → LGlyph.font g₁ = LGlyph.font g₂) →
    pushLayoutAux strokeFn ctx scene glyphs size opts memo =
      pushLayoutNaive strokeFn ctx scene glyphs size opts := by
  intro glyphs
  induction glyphs with
  | nil => intro ctx scene memo _ _ _; rfl
  | cons g gs ih =>
    intro ctx scene memo hkey hfont hwf
    have hwf' : ∀ g₁ ∈ gs, ∀ g₂ ∈ gs,
        LGlyph.fontPtr g₁ = LGlyph.fontPtr g₂ → LGlyph.font g₁ = LGlyph.font g₂ :=
      fun g1 h1 g2 h2 => hwf g1 (List.mem_cons_of_mem g h1) g2 (List.mem_cons_of_mem g h2)
    have hfontg : ∀ g' ∈ gs, LGlyph.fontPtr g' = g.fontPtr → LGlyph.font g' = g.font :=
      fun g' hg' hp' =>
        hwf g' (List.mem_cons_of_mem g hg') g (List.mem_cons_self g gs) hp'
    cases memo with
    | none =>
      simp only [pushLayoutAux, pushLayoutNaive]
      cases hr : (pushGlyph strokeFn ctx scene g.font g.font.postscriptName g.glyphId
          g.offset size opts).result with
      | some e => simp only [hr]
      | none =>
        simp only [hr]
        exact ih _ _ (some ⟨g.fontPtr, g.font, g.font.postscriptName⟩)
          (fun m' hm' => by injection hm' with h'; subst h'; rfl)
          (fun m' hm' g' hg' hp' => by
            injection hm' with h'
            subst h'
            exact hfontg g' hg' hp')
          hwf'
    | some m =>
      by_cases hp : m.fontPtr = g.fontPtr
      · have hf : g.font = m.font := hfont m rfl g (List.mem_cons_self g gs) hp.symm
        have hk : m.key = g.font.postscriptName := by rw [hkey m rfl, hf]
        simp only [pushLayoutAux, pushLayoutNaive, if_pos hp, hk, ← hf]
        cases hr : (pushGlyph strokeFn ctx scene g.font g.font.postscriptName g.glyphId
            g.offset size opts).result with
        | some e => simp only [hr]
        | none =>
          simp only [hr]
          exact ih _ _ (some m)
            (fun m' hm' => by injection hm' with h'; subst h'; exact hkey m rfl)
            (fun m' hm' g' hg' hp' => by
              injection hm' with h'
              subst h'
              rw [← hf]
              exact hfontg g' hg' (hp'.trans hp))
            hwf'
      · simp only [pushLayoutAux, pushLayoutNaive, if_neg hp]
        cases hr : (pushGlyph strokeFn ctx scene g.font g.font.postscriptName g.glyphId
            g.offset size opts).result with
        | some e => simp only [hr]
        | none =>
          simp only [hr]
          exact ih _ _ (some ⟨g.fontPtr, g.font, g.font.postscriptName⟩)
            (fun m' hm' => by injection hm' with h'; subst h'; rfl)
            (fun m' hm' g' hg' hp' => by
              injection hm' with h'
              subst h'
              exact hfontg g' hg' hp')
            hwf'

/-- C9: Previous-font memo transparency: on any layout whose equal font
pointers reference equal fonts (the invariant Arc pointer equality
provides), push_layout with its one-slot identity-compared memo of the
previous glyph's font returns exactly the same result (context, scene
and error) as the naive variant that recomputes the font's postscript
name for every glyph and passes each glyph's own font. -/
theorem pushLayout_memo_transparency (strokeFn : StrokeFn) (ctx : FontContext)
    (scene : Scene) (glyphs : List LGlyph) (style : TextStyle)
    (opts : FontRenderOptions)
    (hwf : ∀ g₁ ∈ glyphs, ∀ g₂ ∈ glyphs,
      LGlyph.fontPtr g₁ = LGlyph.fontPtr g₂ → LGlyph.font g₁ = LGlyph.font g₂) :
    pushLayout strokeFn ctx scene glyphs style opts =
      pushLayoutNaive strokeFn ctx scene glyphs style.size opts :=
  pushLayoutAux_memo_naive strokeFn style.size opts glyphs ctx scene none
    (fun m hm => by cases hm) (fun m hm => by cases hm) hwf

theorem pushLayout_memo_transparency_witness :
    pushLayout idStrokeFn FontContext.new [] layoutTwo ⟨10⟩ (fillOpts ⟨1, 0, 0, 1, 0, 0⟩) =
      pushLayoutNaive idStrokeFn FontContext.new [] layoutTwo 10
        (fillOpts ⟨1, 0, 0, 1, 0, 0⟩) :=
  pushLayout_memo_transparency idStrokeFn FontContext.new [] layoutTwo ⟨10⟩
    (fillOpts ⟨1, 0, 0, 1, 0, 0⟩)
    (by
      intro g1 h1 g2 h2 _
      simp only [layoutTwo, List.mem_cons, List.not_mem_nil, or_false] at h1 h2
      rcases h1 with h1 | h1 <;> rcases h2 with h2 | h2 <;> subst h1 <;> subst h2 <;> rfl)
